import Mathlib

/-!
Shallow embedding of the Enigma cipher engine of this repository
(`src/front/src/lib/enigma.ts`, mirrored by `src/enigma/*.js`).

Modelling conventions:
* A JavaScript single-character string is a Lean `Char`; a JavaScript string
  is a `List Char`.
* `String.prototype.toUpperCase` restricted to the characters the engine
  handles is `Char.toUpper` (ASCII `a`-`z` mapped to `A`-`Z`, everything else
  unchanged), matching the JS behaviour on the Basic Latin range.
* `ALPHABET.includes(c)` for a one-character string `c` is `c ∈ ALPHABET`.
* `s.charCodeAt(0) - 65` is `idxOf` on a `Char`; on a whole string it is
  `charCodeAt0` (`none` models the `NaN` produced on the empty string).
* String indexing `s[i]` is `List.getD i` (the code only indexes in range on
  the flows modelled here; the default character is arbitrary).
* A JS `Map` initialised with the identity on all 26 letters and consulted
  only at letters is a total function `Char → Char` starting from `id`.
* Exceptions are `Except String`; in-place mutation is explicit state passing.
-/

def ALPHABET : List Char := "ABCDEFGHIJKLMNOPQRSTUVWXYZ".toList

/-- `c.charCodeAt(0) - 65` for a one-character string `c`. -/
def idxOf (c : Char) : Nat := c.toNat - 65

/-- `s.charCodeAt(0)` for an arbitrary string: `none` models `NaN` on `""`. -/
def charCodeAt0 (s : List Char) : Option Nat := s.head?.map Char.toNat

/-- The stage tags of the `SignalStep` interface. -/
inductive ComponentType where
  | input | plugboard_in | rotor_r | rotor_m | rotor_l | reflector
  | rotor_l_back | rotor_m_back | rotor_r_back | plugboard_out | output
deriving DecidableEq, Repr

/-- One entry of the visualization trace (interface `SignalStep`). -/
structure SignalStep where
  component : ComponentType
  inputLetter : Char
  outputLetter : Char
  inputIndex : Nat
  outputIndex : Nat
deriving DecidableEq, Repr

/-- The full trace of one keystroke (interface `SignalPath`). -/
structure SignalPath where
  steps : List SignalStep
  inputLetter : Char
  outputLetter : Char
deriving DecidableEq, Repr

/-- Class `Rotor`: the four instance fields. -/
structure Rotor where
  wiring : List Char
  notchChar : Char
  posicao : Nat
  inverseWiring : List Char
deriving DecidableEq, Repr

/-- `Rotor._calcularInverseWiring`: `inv[wiring[i]] = ALPHABET[i]` over a
26-slot array of holes, then `join` (which drops unfilled holes). -/
def calcularInverseWiring (wiring : List Char) : List Char :=
  let slots := (List.range 26).foldl
    (fun (inv : List (Option Char)) i =>
      inv.set (idxOf (wiring.getD i ' ')) (some (ALPHABET.getD i ' ')))
    (List.replicate 26 none)
  slots.filterMap id

/-- The `Rotor` constructor. The source throws when `wiring.length ≠ 26`;
no claim concerns that branch, and every wiring built here has length 26. -/
def mkRotor (wiring : List Char) (notchChar : Char) (posicaoInicial : Nat) : Rotor :=
  let w := wiring.map Char.toUpper
  { wiring := w
    notchChar := notchChar.toUpper
    posicao := posicaoInicial % 26
    inverseWiring := calcularInverseWiring w }

/-- `Rotor.girar`: advance the position by one, modulo 26. -/
def Rotor.girar (r : Rotor) : Rotor := { r with posicao := (r.posicao + 1) % 26 }

/-- `Rotor.estaNoNotch`: is the window letter the notch letter? -/
def Rotor.estaNoNotch (r : Rotor) : Bool := ALPHABET.getD r.posicao ' ' = r.notchChar

/-- `Rotor.passarParaFrente` (forward pass through the wiring). -/
def Rotor.passarParaFrente (r : Rotor) (letra : Char) : Char :=
  let idxEntrada := idxOf letra
  let idxComOffset := (idxEntrada + r.posicao + 26) % 26
  let letraSaida := r.wiring.getD idxComOffset ' '
  let idxFinal := (idxOf letraSaida + 26 - r.posicao) % 26
  ALPHABET.getD idxFinal ' '

/-- `Rotor.passarParaTras` (backward pass through the inverse wiring). -/
def Rotor.passarParaTras (r : Rotor) (letra : Char) : Char :=
  let idxEntrada := idxOf letra
  let idxComOffset := (idxEntrada + r.posicao + 26) % 26
  let letraSaida := r.inverseWiring.getD idxComOffset ' '
  let idxFinal := (idxOf letraSaida + 26 - r.posicao) % 26
  ALPHABET.getD idxFinal ' '

/-- `Rotor.setPosicaoPorLetra`: `idx = letra.toUpperCase().charCodeAt(0) - 65`,
throw iff `idx < 0 || idx > 25`. On the empty string the source stores `NaN`
in `posicao` (both comparisons are false); `Nat` cannot represent `NaN`, so
that branch leaves the rotor unchanged here, and no theorem below relies on
the post-state of an empty-string call. -/
def Rotor.setPosicaoPorLetra (r : Rotor) (letra : List Char) : Except String Rotor :=
  match charCodeAt0 (letra.map Char.toUpper) with
  | none => .ok r
  | some code =>
    let idx : Int := (code : Int) - 65
    if idx < 0 ∨ idx > 25 then .error "Invalid position"
    else .ok { r with posicao := idx.toNat }

/-- `Rotor.getPosicaoLetra`. -/
def Rotor.getPosicaoLetra (r : Rotor) : Char := ALPHABET.getD r.posicao ' '

/-- Class `Plugboard`: the `mapa` of the 26 letters, as a total function. -/
structure Plugboard where
  mapa : Char → Char

/-- The `Plugboard` constructor: start from the identity, then for each pair
keep it only if it has exactly two characters and both uppercase to alphabet
letters; `set(a, b); set(b, a)` is the symmetric functional update. -/
def mkPlugboard (pares : List (List Char)) : Plugboard :=
  ⟨pares.foldl
    (fun mapa par =>
      if par.length ≠ 2 then mapa
      else
        let a := (par.getD 0 ' ').toUpper
        let b := (par.getD 1 ' ').toUpper
        if a ∈ ALPHABET ∧ b ∈ ALPHABET then
          fun x => if x = a then b else if x = b then a else mapa x
        else mapa)
    id⟩

/-- `Plugboard.trocar`: non-letters (after uppercasing) are returned as
given; letters are looked up in the map. -/
def Plugboard.trocar (pb : Plugboard) (letra : Char) : Char :=
  let l := letra.toUpper
  if l ∈ ALPHABET then pb.mapa l else letra

/-- Class `Reflector`. The source throws when the wiring length is not 26;
no claim concerns that branch. -/
structure Reflector where
  wiring : List Char

/-- The `Reflector` constructor (uppercases the wiring). -/
def mkReflector (wiring : List Char) : Reflector := ⟨wiring.map Char.toUpper⟩

/-- `Reflector.refletir`: plain table lookup, with out-of-range indices
returned unchanged. -/
def Reflector.refletir (f : Reflector) (letra : Char) : Char :=
  let idx : Int := (letra.toNat : Int) - 65
  if idx < 0 ∨ idx > 25 then letra else f.wiring.getD idx.toNat ' '

/-- Class `Enigma`: a reflector, the rotor array `[left, middle, right]`
(the constructor enforces exactly three rotors, so the array is a record
with one field per slot), and a plugboard. -/
structure Enigma where
  reflector : Reflector
  rotorEsq : Rotor
  rotorMeio : Rotor
  rotorDir : Rotor
  plugboard : Plugboard

/-- `Enigma.setPosicoes`: length check, then a loop setting each rotor in
order; an error in one iteration aborts the loop but keeps the mutations of
the earlier iterations (the thrown exception propagates past them). -/
def Enigma.setPosicoes (e : Enigma) (posicoes : List (List Char)) :
    Enigma × Option String :=
  if posicoes.length ≠ 3 then
    (e, some "3 positions required (left, middle, right)")
  else
    match e.rotorEsq.setPosicaoPorLetra (posicoes.getD 0 []) with
    | .error msg => (e, some msg)
    | .ok r0 =>
      match e.rotorMeio.setPosicaoPorLetra (posicoes.getD 1 []) with
      | .error msg => ({ e with rotorEsq := r0 }, some msg)
      | .ok r1 =>
        match e.rotorDir.setPosicaoPorLetra (posicoes.getD 2 []) with
        | .error msg => ({ e with rotorEsq := r0, rotorMeio := r1 }, some msg)
        | .ok r2 => ({ e with rotorEsq := r0, rotorMeio := r1, rotorDir := r2 }, none)

/-- `Enigma.getPosicoes`. -/
def Enigma.getPosicoes (e : Enigma) : List Char :=
  [e.rotorEsq.getPosicaoLetra, e.rotorMeio.getPosicaoLetra, e.rotorDir.getPosicaoLetra]

/-- `Enigma._stepRotores`: read both notch flags before any rotation, then
two independent conditionals and an unconditional right-rotor rotation. -/
def Enigma.stepRotores (e : Enigma) : Enigma :=
  let meioNoNotch := e.rotorMeio.estaNoNotch
  let dirNoNotch := e.rotorDir.estaNoNotch
  let (rotorMeio1, rotorEsq1) :=
    if meioNoNotch then (e.rotorMeio.girar, e.rotorEsq.girar)
    else (e.rotorMeio, e.rotorEsq)
  let rotorMeio2 := if dirNoNotch then rotorMeio1.girar else rotorMeio1
  let rotorDir1 := e.rotorDir.girar
  { e with rotorEsq := rotorEsq1, rotorMeio := rotorMeio2, rotorDir := rotorDir1 }

/-- `Enigma.encipherCharWithPath`: uppercase, pass non-letters through with
an empty trace and no stepping, otherwise step the rotors and route the
signal through the nine stages, recording every step. -/
def Enigma.encipherCharWithPath (e : Enigma) (letra : Char) :
    Enigma × SignalPath :=
  let c0 := letra.toUpper
  if c0 ∈ ALPHABET then
    let e1 := e.stepRotores
    let c1 := e1.plugboard.trocar c0
    let c2 := e1.rotorDir.passarParaFrente c1
    let c3 := e1.rotorMeio.passarParaFrente c2
    let c4 := e1.rotorEsq.passarParaFrente c3
    let c5 := e1.reflector.refletir c4
    let c6 := e1.rotorEsq.passarParaTras c5
    let c7 := e1.rotorMeio.passarParaTras c6
    let c8 := e1.rotorDir.passarParaTras c7
    let c9 := e1.plugboard.trocar c8
    (e1,
      { steps :=
          [ ⟨.input, c0, c0, idxOf c0, idxOf c0⟩,
            ⟨.plugboard_in, c0, c1, idxOf c0, idxOf c1⟩,
            ⟨.rotor_r, c1, c2, idxOf c1, idxOf c2⟩,
            ⟨.rotor_m, c2, c3, idxOf c2, idxOf c3⟩,
            ⟨.rotor_l, c3, c4, idxOf c3, idxOf c4⟩,
            ⟨.reflector, c4, c5, idxOf c4, idxOf c5⟩,
            ⟨.rotor_l_back, c5, c6, idxOf c5, idxOf c6⟩,
            ⟨.rotor_m_back, c6, c7, idxOf c6, idxOf c7⟩,
            ⟨.rotor_r_back, c7, c8, idxOf c7, idxOf c8⟩,
            ⟨.plugboard_out, c8, c9, idxOf c8, idxOf c9⟩,
            ⟨.output, c9, c9, idxOf c9, idxOf c9⟩ ]
        inputLetter := c0
        outputLetter := c9 })
  else
    (e, { steps := [], inputLetter := letra, outputLetter := letra })

/-- `Enigma.encipherChar`: the output letter of `encipherCharWithPath`. -/
def Enigma.encipherChar (e : Enigma) (letra : Char) : Enigma × Char :=
  let r := e.encipherCharWithPath letra
  (r.1, r.2.outputLetter)

/-- `Enigma.encipherText`: fold `encipherChar` over the characters in order,
threading the machine state and concatenating the outputs. -/
def Enigma.encipherText (e : Enigma) : List Char → Enigma × List Char
  | [] => (e, [])
  | ch :: resto =>
    let r := e.encipherChar ch
    let rs := r.1.encipherText resto
    (rs.1, r.2 :: rs.2)

/-- `ROTOR_I` factory (each call builds a fresh, immutable value). -/
def ROTOR_I : Rotor := mkRotor "EKMFLGDQVZNTOWYHXUSPAIBRCJ".toList 'Q' 0

/-- `ROTOR_II` factory. -/
def ROTOR_II : Rotor := mkRotor "AJDKSIRUXBLHWTMCQGZNPYFVOE".toList 'E' 0

/-- `ROTOR_III` factory. -/
def ROTOR_III : Rotor := mkRotor "BDFHJLCPRTXVZNYEIWGAKMUSQO".toList 'V' 0

/-- `ROTOR_IV` factory. -/
def ROTOR_IV : Rotor := mkRotor "ESOVPZJAYQUIRHXLNFTGKDCMWB".toList 'J' 0

/-- `ROTOR_V` factory. -/
def ROTOR_V : Rotor := mkRotor "VZBRGITYUPSDNHLXAWMJQOFECK".toList 'Z' 0

/-- `REFLECTOR_B` factory. -/
def REFLECTOR_B : Reflector := mkReflector "YRUHQSLDPXNGOKMIEBFZCWVJAT".toList

/-- `REFLECTOR_C` factory. -/
def REFLECTOR_C : Reflector := mkReflector "FVPJIAOYEDRZXWGCTKUQSBNMHL".toList

/-- The keys of `ROTOR_CONFIGS`. -/
inductive RotorType where
  | I | II | III | IV | V
deriving DecidableEq, Repr

/-- The keys of `REFLECTOR_CONFIGS`. -/
inductive ReflectorType where
  | B | C
deriving DecidableEq, Repr

/-- `ROTOR_CONFIGS[t].factory()`. -/
def rotorOf : RotorType → Rotor
  | .I => ROTOR_I
  | .II => ROTOR_II
  | .III => ROTOR_III
  | .IV => ROTOR_IV
  | .V => ROTOR_V

/-- `REFLECTOR_CONFIGS[t].factory()`. -/
def reflectorOf : ReflectorType → Reflector
  | .B => REFLECTOR_B
  | .C => REFLECTOR_C

/-- A machine built from a configuration, the way the repository assembles
one: fresh rotors and reflector from the registry, a plugboard from the pair
list, then `setPosicoes` with the three starting-position letters. -/
def buildMachine (t1 t2 t3 : RotorType) (rf : ReflectorType)
    (p1 p2 p3 : Char) (pares : List (List Char)) : Enigma :=
  (Enigma.setPosicoes
    { reflector := reflectorOf rf
      rotorEsq := rotorOf t1
      rotorMeio := rotorOf t2
      rotorDir := rotorOf t3
      plugboard := mkPlugboard pares }
    [[p1], [p2], [p3]]).1

/-! ### Generic list helpers -/

theorem listGetD_set_ne {α : Type} (l : List α) (i j : Nat) (a d : α)
    (h : i ≠ j) : (l.set i a).getD j d = l.getD j d := by
  induction l generalizing i j with
  | nil => simp [List.set]
  | cons x t ih =>
    cases i with
    | zero =>
      cases j with
      | zero => exact absurd rfl h
      | succ j => simp [List.set, List.getD]
    | succ i =>
      cases j with
      | zero => simp [List.set, List.getD]
      | succ j =>
        simp only [List.set, List.getD_cons_succ]
        exact ih i j (fun hc => h (by simp [hc]))

theorem listGetD_set_self {α : Type} (l : List α) (i : Nat) (a d : α)
    (h : i < l.length) : (l.set i a).getD i d = a := by
  induction l generalizing i with
  | nil => simp at h
  | cons x t ih =>
    cases i with
    | zero => simp [List.set]
    | succ i =>
      simp only [List.set, List.getD_cons_succ]
      exact ih i (by simpa using h)

theorem listGetD_mem {α : Type} (l : List α) (i : Nat) (d : α)
    (h : i < l.length) : l.getD i d ∈ l := by
  induction l generalizing i with
  | nil => simp at h
  | cons x t ih =>
    cases i with
    | zero => simp
    | succ i =>
      simp only [List.getD_cons_succ]
      exact List.mem_cons_of_mem _ (ih i (by simpa using h))

theorem listMem_getD {α : Type} (l : List α) (c d : α) (h : c ∈ l) :
    ∃ i, i < l.length ∧ l.getD i d = c := by
  induction l with
  | nil => simp at h
  | cons x t ih =>
    rcases List.mem_cons.mp h with h | h
    · exact ⟨0, by simp, by simp [h.symm]⟩
    · rcases ih h with ⟨i, hi, hgi⟩
      exact ⟨i + 1, by simpa using hi, by simpa using hgi⟩

theorem listGetD_map {α β : Type} (f : α → β) (l : List α) (i : Nat)
    (d : α) (d' : β) (h : i < l.length) :
    (l.map f).getD i d' = f (l.getD i d) := by
  induction l generalizing i with
  | nil => simp at h
  | cons x t ih =>
    cases i with
    | zero => simp
    | succ i => simpa using ih i (by simpa using h)

theorem listFilterMap_id_allSome {α : Type} (d : α) (l : List (Option α))
    (h : ∀ x ∈ l, x ≠ none) :
    l.filterMap id = l.map (fun o => o.getD d) := by
  induction l with
  | nil => rfl
  | cons o t ih =>
    match o, h o (by simp) with
    | some a, _ =>
      simp only [List.filterMap_cons, id, List.map_cons, Option.getD_some]
      exact congrArg _ (ih fun x hx => h x (List.mem_cons_of_mem _ hx))

theorem listNodup_getD_inj {α : Type} (l : List α) (d : α) (hnd : l.Nodup) :
    ∀ i j, i < l.length → j < l.length → l.getD i d = l.getD j d → i = j := by
  induction l with
  | nil => intro i j hi; simp at hi
  | cons x t ih =>
    rcases List.nodup_cons.mp hnd with ⟨hx, hnd'⟩
    intro i j hi hj heq
    cases i with
    | zero =>
      cases j with
      | zero => rfl
      | succ j =>
        simp only [List.getD_cons_zero, List.getD_cons_succ] at heq
        exact absurd (heq ▸ listGetD_mem t j d (by simpa using hj)) hx
    | succ i =>
      cases j with
      | zero =>
        simp only [List.getD_cons_zero, List.getD_cons_succ] at heq
        exact absurd (heq ▸ listGetD_mem t i d (by simpa using hi)) hx
      | succ j =>
        simp only [List.getD_cons_succ] at heq
        exact congrArg Nat.succ
          (ih hnd' i j (by simpa using hi) (by simpa using hj) heq)

/-! ### Basic facts about the alphabet -/

theorem alphabet_length : ALPHABET.length = 26 := by decide

theorem alphabet_nodup : ALPHABET.Nodup := by decide

theorem mem_alphabet_facts :
    ∀ c ∈ ALPHABET, c.toUpper = c ∧ idxOf c < 26 ∧
      ALPHABET.getD (idxOf c) ' ' = c := by decide

theorem alphabet_getD_mem : ∀ k, k < 26 → ALPHABET.getD k ' ' ∈ ALPHABET := by
  decide

theorem idxOf_alphabet_getD : ∀ k, k < 26 → idxOf (ALPHABET.getD k ' ') = k := by
  decide

/-! ### The inverse wiring of a permutation wiring -/

theorem invSlots_length (w : List Char) :
    ∀ (l : List Nat) (acc : List (Option Char)),
      (l.foldl (fun inv i =>
        inv.set (idxOf (w.getD i ' ')) (some (ALPHABET.getD i ' '))) acc).length
      = acc.length := by
  intro l
  induction l with
  | nil => intro acc; rfl
  | cons i t ih =>
    intro acc
    simpa [List.foldl_cons] using (ih _).trans (List.length_set ..)

theorem invSlots_getD_notin (w : List Char) :
    ∀ (l : List Nat) (acc : List (Option Char)) (t : Nat),
      (∀ i ∈ l, idxOf (w.getD i ' ') ≠ t) →
      (l.foldl (fun inv i =>
        inv.set (idxOf (w.getD i ' ')) (some (ALPHABET.getD i ' '))) acc).getD t none
      = acc.getD t none := by
  intro l
  induction l with
  | nil => intro acc t _; rfl
  | cons i tl ih =>
    intro acc t h
    rw [List.foldl_cons, ih _ t (fun j hj => h j (List.mem_cons_of_mem _ hj)),
      listGetD_set_ne _ _ _ _ _ (h i (by simp))]

theorem invSlots_getD_hit (w : List Char) :
    ∀ (l : List Nat) (acc : List (Option Char)) (t i₀ : Nat),
      i₀ ∈ l → idxOf (w.getD i₀ ' ') = t →
      (∀ j ∈ l, idxOf (w.getD j ' ') = t → j = i₀) →
      t < acc.length →
      (l.foldl (fun inv i =>
        inv.set (idxOf (w.getD i ' ')) (some (ALPHABET.getD i ' '))) acc).getD t none
      = some (ALPHABET.getD i₀ ' ') := by
  intro l
  induction l with
  | nil => intro acc t i₀ h; simp at h
  | cons i tl ih =>
    intro acc t i₀ hmem htgt huniq hlen
    rw [List.foldl_cons]
    by_cases hin : i₀ ∈ tl
    · exact ih _ t i₀ hin htgt
        (fun j hj h => huniq j (List.mem_cons_of_mem _ hj) h)
        (by rw [List.length_set]; exact hlen)
    · have hi : i = i₀ := by
        rcases List.mem_cons.mp hmem with h | h
        · exact h.symm
        · exact absurd h hin
      subst hi
      rw [invSlots_getD_notin w tl _ t
        (fun j hj h => hin ((huniq j (List.mem_cons_of_mem _ hj) h) ▸ hj)),
        htgt, listGetD_set_self _ _ _ _ (htgt ▸ hlen)]

theorem perm_wiring_getD_mem (w : List Char) (hw : w.Perm ALPHABET) :
    ∀ j, j < 26 → w.getD j ' ' ∈ ALPHABET := by
  intro j hj
  exact hw.subset (listGetD_mem w j ' '
    (by rw [hw.length_eq, alphabet_length]; exact hj))

theorem perm_wiring_surj (w : List Char) (hw : w.Perm ALPHABET) :
    ∀ t, t < 26 → ∃ j, j < 26 ∧ idxOf (w.getD j ' ') = t := by
  intro t ht
  have hc : ALPHABET.getD t ' ' ∈ w := hw.mem_iff.mpr (alphabet_getD_mem t ht)
  rcases listMem_getD w (ALPHABET.getD t ' ') ' ' hc with ⟨j, hj, hgj⟩
  exact ⟨j, by rwa [hw.length_eq, alphabet_length] at hj,
    by rw [hgj, idxOf_alphabet_getD t ht]⟩

theorem perm_wiring_tgt_inj (w : List Char) (hw : w.Perm ALPHABET) :
    ∀ i j, i < 26 → j < 26 → idxOf (w.getD i ' ') = idxOf (w.getD j ' ') →
      i = j := by
  intro i j hi hj h
  have hnd : w.Nodup := (hw.nodup_iff).mpr alphabet_nodup
  have hwi := perm_wiring_getD_mem w hw i hi
  have hwj := perm_wiring_getD_mem w hw j hj
  have : w.getD i ' ' = w.getD j ' ' := by
    rw [← (mem_alphabet_facts _ hwi).2.2, ← (mem_alphabet_facts _ hwj).2.2, h]
  exact listNodup_getD_inj w ' ' hnd i j
    (by rw [hw.length_eq, alphabet_length]; exact hi)
    (by rw [hw.length_eq, alphabet_length]; exact hj) this

theorem invSlots_getD (w : List Char) (hw : w.Perm ALPHABET) (j : Nat)
    (hj : j < 26) :
    ((List.range 26).foldl (fun inv i =>
        inv.set (idxOf (w.getD i ' ')) (some (ALPHABET.getD i ' ')))
      (List.replicate 26 none)).getD (idxOf (w.getD j ' ')) none
    = some (ALPHABET.getD j ' ') := by
  apply invSlots_getD_hit w (List.range 26) _ _ j (List.mem_range.mpr hj) rfl
  · intro k hk h
    exact perm_wiring_tgt_inj w hw k j (List.mem_range.mp hk) hj h
  · rw [List.length_replicate]
    exact (mem_alphabet_facts _ (perm_wiring_getD_mem w hw j hj)).2.1

theorem calcularInverseWiring_eq_map (w : List Char) (hw : w.Perm ALPHABET) :
    calcularInverseWiring w =
      ((List.range 26).foldl (fun inv i =>
          inv.set (idxOf (w.getD i ' ')) (some (ALPHABET.getD i ' ')))
        (List.replicate 26 none)).map (fun o => o.getD ' ') := by
  apply listFilterMap_id_allSome
  intro x hx
  have hlen : ((List.range 26).foldl (fun inv i =>
      inv.set (idxOf (w.getD i ' ')) (some (ALPHABET.getD i ' ')))
      (List.replicate 26 none)).length = 26 := by
    rw [invSlots_length, List.length_replicate]
  rcases listMem_getD _ x none hx with ⟨t, ht, hgt⟩
  rw [hlen] at ht
  rcases perm_wiring_surj w hw t ht with ⟨j, hj, htgt⟩
  intro hnone
  rw [← hgt, ← htgt, invSlots_getD w hw j hj] at hnone
  exact Option.noConfusion hnone

theorem calcularInverseWiring_length (w : List Char) (hw : w.Perm ALPHABET) :
    (calcularInverseWiring w).length = 26 := by
  rw [calcularInverseWiring_eq_map w hw, List.length_map, invSlots_length,
    List.length_replicate]

theorem inverseWiring_spec (w : List Char) (hw : w.Perm ALPHABET) (j : Nat)
    (hj : j < 26) :
    (calcularInverseWiring w).getD (idxOf (w.getD j ' ')) ' '
      = ALPHABET.getD j ' ' := by
  rw [calcularInverseWiring_eq_map w hw,
    listGetD_map _ _ _ none _ (by
      rw [invSlots_length, List.length_replicate]
      exact (mem_alphabet_facts _ (perm_wiring_getD_mem w hw j hj)).2.1),
    invSlots_getD w hw j hj]
  rfl

theorem inverseWiring_getD_mem (w : List Char) (hw : w.Perm ALPHABET) (t : Nat)
    (ht : t < 26) : (calcularInverseWiring w).getD t ' ' ∈ ALPHABET := by
  rcases perm_wiring_surj w hw t ht with ⟨j, hj, htgt⟩
  rw [← htgt, inverseWiring_spec w hw j hj]
  exact alphabet_getD_mem j hj

theorem inverseWiring_winv_spec (w : List Char) (hw : w.Perm ALPHABET) (t : Nat)
    (ht : t < 26) :
    w.getD (idxOf ((calcularInverseWiring w).getD t ' ')) ' '
      = ALPHABET.getD t ' ' := by
  rcases perm_wiring_surj w hw t ht with ⟨j, hj, htgt⟩
  rw [← htgt, inverseWiring_spec w hw j hj, idxOf_alphabet_getD j hj]
  exact ((mem_alphabet_facts _ (perm_wiring_getD_mem w hw j hj)).2.2).symm

theorem passarParaFrente_eq (r : Rotor) (x : Char) :
    r.passarParaFrente x =
      ALPHABET.getD
        ((idxOf (r.wiring.getD ((idxOf x + r.posicao + 26) % 26) ' ')
          + 26 - r.posicao) % 26) ' ' := rfl

theorem passarParaTras_eq (r : Rotor) (x : Char) :
    r.passarParaTras x =
      ALPHABET.getD
        ((idxOf (r.inverseWiring.getD ((idxOf x + r.posicao + 26) % 26) ' ')
          + 26 - r.posicao) % 26) ' ' := rfl

theorem passarParaFrente_mem (r : Rotor) (x : Char) :
    r.passarParaFrente x ∈ ALPHABET := by
  rw [passarParaFrente_eq]
  exact alphabet_getD_mem _ (Nat.mod_lt _ (by norm_num))

theorem passarParaTras_mem (r : Rotor) (x : Char) :
    r.passarParaTras x ∈ ALPHABET := by
  rw [passarParaTras_eq]
  exact alphabet_getD_mem _ (Nat.mod_lt _ (by norm_num))

theorem rotor_backward_forward (r : Rotor) (hperm : r.wiring.Perm ALPHABET)
    (hinv : r.inverseWiring = calcularInverseWiring r.wiring)
    (hpos : r.posicao < 26) (x : Char) (hx : x ∈ ALPHABET) :
    r.passarParaTras (r.passarParaFrente x) = x := by
  obtain ⟨-, hxlt, hxget⟩ := mem_alphabet_facts x hx
  rw [passarParaFrente_eq, passarParaTras_eq]
  set p := r.posicao with hpdef
  set j := (idxOf x + p + 26) % 26 with hjdef
  have hj : j < 26 := Nat.mod_lt _ (by norm_num)
  set s := idxOf (r.wiring.getD j ' ') with hsdef
  have hs : s < 26 :=
    (mem_alphabet_facts _ (perm_wiring_getD_mem _ hperm j hj)).2.1
  have hf : (s + 26 - p) % 26 < 26 := Nat.mod_lt _ (by norm_num)
  rw [idxOf_alphabet_getD _ hf]
  have hmid : ((s + 26 - p) % 26 + p + 26) % 26 = s := by omega
  rw [hmid, hinv]
  have hspec := inverseWiring_spec r.wiring hperm j hj
  rw [← hsdef] at hspec
  rw [hspec, idxOf_alphabet_getD j hj]
  have hback : (j + 26 - p) % 26 = idxOf x := by omega
  rw [hback, hxget]

theorem rotor_forward_backward (r : Rotor) (hperm : r.wiring.Perm ALPHABET)
    (hinv : r.inverseWiring = calcularInverseWiring r.wiring)
    (hpos : r.posicao < 26) (x : Char) (hx : x ∈ ALPHABET) :
    r.passarParaFrente (r.passarParaTras x) = x := by
  obtain ⟨-, hxlt, hxget⟩ := mem_alphabet_facts x hx
  rw [passarParaTras_eq, passarParaFrente_eq]
  set p := r.posicao with hpdef
  set j := (idxOf x + p + 26) % 26 with hjdef
  have hj : j < 26 := Nat.mod_lt _ (by norm_num)
  rw [hinv]
  set s := idxOf ((calcularInverseWiring r.wiring).getD j ' ') with hsdef
  have hs : s < 26 :=
    (mem_alphabet_facts _ (inverseWiring_getD_mem _ hperm j hj)).2.1
  have hf : (s + 26 - p) % 26 < 26 := Nat.mod_lt _ (by norm_num)
  rw [idxOf_alphabet_getD _ hf]
  have hmid : ((s + 26 - p) % 26 + p + 26) % 26 = s := by omega
  rw [hmid]
  have hspec := inverseWiring_winv_spec r.wiring hperm j hj
  rw [← hsdef] at hspec
  rw [hspec, idxOf_alphabet_getD j hj]
  have hback : (j + 26 - p) % 26 = idxOf x := by omega
  rw [hback, hxget]

/-! ### Wirings that are permutations of the alphabet -/

theorem alphabet_perm_of (w : List Char) (h1 : w.length = 26)
    (h2 : ∀ c ∈ ALPHABET, c ∈ w) : w.Perm ALPHABET := by
  have hsub : List.Subperm ALPHABET w := List.subperm_of_subset alphabet_nodup h2
  exact (hsub.perm_of_length_le (by rw [h1, alphabet_length])).symm

theorem map_toUpper_of_perm (w : List Char) (hw : w.Perm ALPHABET) :
    w.map Char.toUpper = w := by
  have h : ∀ c ∈ w, Char.toUpper c = c :=
    fun c hc => (mem_alphabet_facts c (hw.subset hc)).1
  calc w.map Char.toUpper = w.map id := List.map_congr_left h
    _ = w := List.map_id w

/-- C3. Rotor round-trip: for every rotor built from a 26-letter wiring that
is a permutation of the alphabet, at every position and for every alphabet
letter `x`, the backward pass inverts the forward pass and vice versa. -/
theorem rotor_roundtrip_C3 (w : List Char) (hw : w.Perm ALPHABET) (n : Char)
    (p : Nat) (x : Char) (hx : x ∈ ALPHABET) :
    (mkRotor w n p).passarParaTras ((mkRotor w n p).passarParaFrente x) = x ∧
    (mkRotor w n p).passarParaFrente ((mkRotor w n p).passarParaTras x) = x := by
  have hwU0 : (mkRotor w n p).wiring = w.map Char.toUpper := rfl
  have hwU : (mkRotor w n p).wiring = w := by
    rw [hwU0, map_toUpper_of_perm w hw]
  have hperm : (mkRotor w n p).wiring.Perm ALPHABET := by rw [hwU]; exact hw
  have hinv0 : (mkRotor w n p).inverseWiring
      = calcularInverseWiring (w.map Char.toUpper) := by
    simp only [mkRotor]
  have hinv : (mkRotor w n p).inverseWiring
      = calcularInverseWiring (mkRotor w n p).wiring := by
    rw [hwU, hinv0, map_toUpper_of_perm w hw]
  have hpos : (mkRotor w n p).posicao < 26 := Nat.mod_lt _ (by norm_num)
  exact ⟨rotor_backward_forward _ hperm hinv hpos x hx,
    rotor_forward_backward _ hperm hinv hpos x hx⟩

/-- Witness for C3: rotor I wiring at position 7, letter `M`. -/
theorem rotor_roundtrip_C3_witness :
    (mkRotor "EKMFLGDQVZNTOWYHXUSPAIBRCJ".toList 'Q' 7).passarParaTras
      ((mkRotor "EKMFLGDQVZNTOWYHXUSPAIBRCJ".toList 'Q' 7).passarParaFrente 'M')
      = 'M' ∧
    (mkRotor "EKMFLGDQVZNTOWYHXUSPAIBRCJ".toList 'Q' 7).passarParaFrente
      ((mkRotor "EKMFLGDQVZNTOWYHXUSPAIBRCJ".toList 'Q' 7).passarParaTras 'M')
      = 'M' :=
  rotor_roundtrip_C3 "EKMFLGDQVZNTOWYHXUSPAIBRCJ".toList
    (alphabet_perm_of _ (by decide) (by decide)) 'Q' 7 'M' (by decide)

/-- C4. Reflector involution: reflectors B and C reflect involutively on all
26 letters and their wirings have no fixed point. -/
theorem reflector_involution_C4 :
    (∀ x ∈ ALPHABET,
      REFLECTOR_B.refletir (REFLECTOR_B.refletir x) = x ∧
      REFLECTOR_C.refletir (REFLECTOR_C.refletir x) = x) ∧
    (∀ i, i < 26 →
      REFLECTOR_B.wiring.getD i ' ' ≠ ALPHABET.getD i ' ' ∧
      REFLECTOR_C.wiring.getD i ' ' ≠ ALPHABET.getD i ' ') := by
  constructor
  · decide
  · decide

/-- Witness for C4: letter `A` and index 0. -/
theorem reflector_involution_C4_witness :
    (REFLECTOR_B.refletir (REFLECTOR_B.refletir 'A') = 'A' ∧
      REFLECTOR_C.refletir (REFLECTOR_C.refletir 'A') = 'A') ∧
    (REFLECTOR_B.wiring.getD 0 ' ' ≠ ALPHABET.getD 0 ' ' ∧
      REFLECTOR_C.wiring.getD 0 ' ' ≠ ALPHABET.getD 0 ' ') :=
  ⟨reflector_involution_C4.1 'A' (by decide),
    reflector_involution_C4.2 0 (by decide)⟩

/-! ### Plugboard involution -/

/-- Proof-layer name for the constructor's fold step; `plugStep_def` proves
it is the function folded by `mkPlugboard`. -/
def plugStep (mapa : Char → Char) (par : List Char) : Char → Char :=
  if par.length ≠ 2 then mapa
  else
    let a := (par.getD 0 ' ').toUpper
    let b := (par.getD 1 ' ').toUpper
    if a ∈ ALPHABET ∧ b ∈ ALPHABET then
      fun x => if x = a then b else if x = b then a else mapa x
    else mapa

theorem plugStep_def (pares : List (List Char)) :
    (mkPlugboard pares).mapa = pares.foldl plugStep id := rfl

theorem plugStep_accepted (m : Char → Char) (par : List Char)
    (hlen : par.length = 2) (ha : (par.getD 0 ' ').toUpper ∈ ALPHABET)
    (hb : (par.getD 1 ' ').toUpper ∈ ALPHABET) :
    plugStep m par = fun x =>
      if x = (par.getD 0 ' ').toUpper then (par.getD 1 ' ').toUpper
      else if x = (par.getD 1 ' ').toUpper then (par.getD 0 ' ').toUpper
      else m x := by
  unfold plugStep
  rw [if_neg (not_not_intro hlen)]
  show (if (par.getD 0 ' ').toUpper ∈ ALPHABET ∧ (par.getD 1 ' ').toUpper ∈ ALPHABET
    then fun x =>
      if x = (par.getD 0 ' ').toUpper then (par.getD 1 ' ').toUpper
      else if x = (par.getD 1 ' ').toUpper then (par.getD 0 ' ').toUpper
      else m x
    else m) = _
  rw [if_pos ⟨ha, hb⟩]

theorem plugStep_rejected (m : Char → Char) (par : List Char)
    (h : ¬(par.length = 2 ∧ (par.getD 0 ' ').toUpper ∈ ALPHABET ∧
      (par.getD 1 ' ').toUpper ∈ ALPHABET)) :
    plugStep m par = m := by
  unfold plugStep
  by_cases hlen : par.length = 2
  · rw [if_neg (not_not_intro hlen)]
    show (if (par.getD 0 ' ').toUpper ∈ ALPHABET ∧ (par.getD 1 ' ').toUpper ∈ ALPHABET
      then fun x =>
        if x = (par.getD 0 ' ').toUpper then (par.getD 1 ' ').toUpper
        else if x = (par.getD 1 ' ').toUpper then (par.getD 0 ' ').toUpper
        else m x
      else m) = m
    rw [if_neg (fun hab => h ⟨hlen, hab.1, hab.2⟩)]
  · rw [if_pos hlen]

/-- The letters of the accepted pairs, in processing order (a pair is
accepted exactly under the constructor's guard). -/
def plugLetters (pares : List (List Char)) : List Char :=
  pares.foldr
    (fun par acc =>
      if par.length = 2 then
        let a := (par.getD 0 ' ').toUpper
        let b := (par.getD 1 ' ').toUpper
        if a ∈ ALPHABET ∧ b ∈ ALPHABET then a :: b :: acc else acc
      else acc) []

theorem plugLetters_cons (par : List Char) (pares : List (List Char)) :
    plugLetters (par :: pares) =
      if par.length = 2 then
        if (par.getD 0 ' ').toUpper ∈ ALPHABET ∧ (par.getD 1 ' ').toUpper ∈ ALPHABET
        then (par.getD 0 ' ').toUpper :: (par.getD 1 ' ').toUpper :: plugLetters pares
        else plugLetters pares
      else plugLetters pares := rfl

theorem plugLetters_cons_accepted (par : List Char) (pares : List (List Char))
    (hlen : par.length = 2) (ha : (par.getD 0 ' ').toUpper ∈ ALPHABET)
    (hb : (par.getD 1 ' ').toUpper ∈ ALPHABET) :
    plugLetters (par :: pares) =
      (par.getD 0 ' ').toUpper :: (par.getD 1 ' ').toUpper :: plugLetters pares := by
  rw [plugLetters_cons, if_pos hlen, if_pos ⟨ha, hb⟩]

theorem plugLetters_cons_rejected (par : List Char) (pares : List (List Char))
    (h : ¬(par.length = 2 ∧ (par.getD 0 ' ').toUpper ∈ ALPHABET ∧
      (par.getD 1 ' ').toUpper ∈ ALPHABET)) :
    plugLetters (par :: pares) = plugLetters pares := by
  rw [plugLetters_cons]
  by_cases hlen : par.length = 2
  · rw [if_pos hlen, if_neg (fun hab => h ⟨hlen, hab.1, hab.2⟩)]
  · rw [if_neg hlen]

theorem plugFold_good (pares : List (List Char)) :
    ∀ (m : Char → Char),
      (∀ x, m (m x) = x) →
      (∀ x, x ∈ ALPHABET → m x ∈ ALPHABET) →
      (∀ x ∈ plugLetters pares, m x = x) →
      (plugLetters pares).Nodup →
      (∀ x, (pares.foldl plugStep m) ((pares.foldl plugStep m) x) = x) ∧
      (∀ x, x ∈ ALPHABET → (pares.foldl plugStep m) x ∈ ALPHABET) := by
  induction pares with
  | nil => intro m h1 h2 _ _; exact ⟨h1, h2⟩
  | cons par rest ih =>
    intro m h1 h2 hfresh hnd
    rw [List.foldl_cons]
    by_cases hacc : par.length = 2 ∧ (par.getD 0 ' ').toUpper ∈ ALPHABET ∧
        (par.getD 1 ' ').toUpper ∈ ALPHABET
    · obtain ⟨hlen, ha, hb⟩ := hacc
      rw [plugLetters_cons_accepted par rest hlen ha hb] at hfresh hnd
      rw [plugStep_accepted m par hlen ha hb]
      have hma : m (par.getD 0 ' ').toUpper = (par.getD 0 ' ').toUpper :=
        hfresh _ (by simp)
      have hmb : m (par.getD 1 ' ').toUpper = (par.getD 1 ' ').toUpper :=
        hfresh _ (by simp)
      have hanb : (par.getD 0 ' ').toUpper ∉ plugLetters rest := by
        intro hmem
        exact (List.nodup_cons.mp hnd).1 (List.mem_cons_of_mem _ hmem)
      have hbnb : (par.getD 1 ' ').toUpper ∉ plugLetters rest :=
        (List.nodup_cons.mp (List.nodup_cons.mp hnd).2).1
      have hndrest : (plugLetters rest).Nodup :=
        (List.nodup_cons.mp (List.nodup_cons.mp hnd).2).2
      have hne : (par.getD 0 ' ').toUpper ≠ (par.getD 1 ' ').toUpper := by
        intro hcontra
        exact (List.nodup_cons.mp hnd).1 (hcontra ▸ List.mem_cons_self _ _)
      apply ih
      · intro x
        by_cases hxa : x = (par.getD 0 ' ').toUpper
        · rw [if_pos hxa, if_neg (Ne.symm hne), if_pos rfl, hxa]
        · by_cases hxb : x = (par.getD 1 ' ').toUpper
          · rw [if_neg hxa, if_pos hxb, if_pos rfl, hxb]
          · rw [if_neg hxa, if_neg hxb]
            have hmxa : m x ≠ (par.getD 0 ' ').toUpper := by
              intro hcontra
              exact hxa (by rw [← h1 x, hcontra, hma])
            have hmxb : m x ≠ (par.getD 1 ' ').toUpper := by
              intro hcontra
              exact hxb (by rw [← h1 x, hcontra, hmb])
            rw [if_neg hmxa, if_neg hmxb, h1]
      · intro x hx
        by_cases hxa : x = (par.getD 0 ' ').toUpper
        · rw [if_pos hxa]; exact hb
        · by_cases hxb : x = (par.getD 1 ' ').toUpper
          · rw [if_neg hxa, if_pos hxb]; exact ha
          · rw [if_neg hxa, if_neg hxb]; exact h2 x hx
      · intro x hxmem
        have hxa : x ≠ (par.getD 0 ' ').toUpper := fun hc => hanb (hc ▸ hxmem)
        have hxb : x ≠ (par.getD 1 ' ').toUpper := fun hc => hbnb (hc ▸ hxmem)
        rw [if_neg hxa, if_neg hxb]
        exact hfresh x (List.mem_cons_of_mem _ (List.mem_cons_of_mem _ hxmem))
      · exact hndrest
    · rw [plugLetters_cons_rejected par rest hacc] at hfresh hnd
      rw [plugStep_rejected m par hacc]
      exact ih m h1 h2 hfresh hnd

theorem plugboard_trocar_good (pares : List (List Char))
    (hnd : (plugLetters pares).Nodup) :
    ∀ x ∈ ALPHABET, (mkPlugboard pares).trocar x ∈ ALPHABET ∧
      (mkPlugboard pares).trocar ((mkPlugboard pares).trocar x) = x := by
  have hmain := plugFold_good pares id (fun x => rfl) (fun x hx => hx)
    (fun x _ => rfl) hnd
  intro x hx
  have hxU : x.toUpper = x := (mem_alphabet_facts x hx).1
  have htx : (mkPlugboard pares).trocar x = (mkPlugboard pares).mapa x := by
    unfold Plugboard.trocar
    rw [hxU, if_pos hx]
  have hmem : (mkPlugboard pares).mapa x ∈ ALPHABET := by
    rw [plugStep_def]; exact hmain.2 x hx
  refine ⟨by rw [htx]; exact hmem, ?_⟩
  rw [htx]
  have htx2 : (mkPlugboard pares).trocar ((mkPlugboard pares).mapa x)
      = (mkPlugboard pares).mapa ((mkPlugboard pares).mapa x) := by
    unfold Plugboard.trocar
    rw [(mem_alphabet_facts _ hmem).1, if_pos hmem]
  rw [htx2, plugStep_def]
  exact hmain.1 x

/-- C5, counterexample to the claim as stated: with the overlapping pair
list `["AB", "BC"]` the letter `A` maps to `B` and back to `C`, so the swap
is not an involution; and with the empty pair list the lowercase letter `a`
is returned as `A`, not unchanged. -/
theorem plugboard_involution_C5_counterexample :
    (mkPlugboard [['A','B'], ['B','C']]).trocar
      ((mkPlugboard [['A','B'], ['B','C']]).trocar 'A') = 'C' ∧ 'C' ≠ 'A' ∧
    (mkPlugboard []).trocar 'a' = 'A' ∧ 'A' ≠ 'a' := by decide

/-- C5, amended. For every plugboard whose accepted pairs have pairwise
distinct letters, the swap is an involution on alphabet letters; the
plugboard built from the empty pair list fixes every character that is an
alphabet letter or whose uppercase form is not an alphabet letter. -/
theorem plugboard_involution_C5 (pares : List (List Char))
    (hnd : (plugLetters pares).Nodup) :
    (∀ x ∈ ALPHABET,
      (mkPlugboard pares).trocar ((mkPlugboard pares).trocar x) = x) ∧
    (∀ x : Char, x ∈ ALPHABET ∨ x.toUpper ∉ ALPHABET →
      (mkPlugboard []).trocar x = x) := by
  refine ⟨fun x hx => (plugboard_trocar_good pares hnd x hx).2, ?_⟩
  intro x hx
  unfold Plugboard.trocar
  rcases hx with hx | hx
  · rw [(mem_alphabet_facts x hx).1, if_pos hx]; rfl
  · rw [if_neg hx]

/-- Witness for C5: pairs `["AQ", "BT"]` and letter `B`; character `!` for
the empty-list clause. -/
theorem plugboard_involution_C5_witness :
    (mkPlugboard [['A','Q'], ['B','T']]).trocar
      ((mkPlugboard [['A','Q'], ['B','T']]).trocar 'B') = 'B' ∧
    (mkPlugboard []).trocar '!' = '!' :=
  ⟨(plugboard_involution_C5 [['A','Q'], ['B','T']] (by decide)).1 'B' (by decide),
    (plugboard_involution_C5 [['A','Q'], ['B','T']] (by decide)).2 '!' (by decide)⟩

/-! ### Machine-level invariants and the per-keystroke route -/

/-- A rotor as the constructor and the position setters produce it: the
wiring permutes the alphabet, the inverse wiring is the precomputed one,
and the position is in range. -/
def RotorGood (r : Rotor) : Prop :=
  r.wiring.Perm ALPHABET ∧
  r.inverseWiring = calcularInverseWiring r.wiring ∧
  r.posicao < 26

/-- A reflector that maps letters to letters involutively. -/
def ReflectorGood (f : Reflector) : Prop :=
  ∀ x ∈ ALPHABET, f.refletir x ∈ ALPHABET ∧ f.refletir (f.refletir x) = x

/-- A plugboard that maps letters to letters involutively. -/
def PlugboardGood (pb : Plugboard) : Prop :=
  ∀ x ∈ ALPHABET, pb.trocar x ∈ ALPHABET ∧ pb.trocar (pb.trocar x) = x

/-- All components of a machine are well formed. -/
def EnigmaGood (e : Enigma) : Prop :=
  RotorGood e.rotorEsq ∧ RotorGood e.rotorMeio ∧ RotorGood e.rotorDir ∧
  ReflectorGood e.reflector ∧ PlugboardGood e.plugboard

theorem girar_good (r : Rotor) (h : RotorGood r) : RotorGood r.girar :=
  ⟨h.1, h.2.1, Nat.mod_lt _ (by norm_num)⟩

theorem stepRotores_eq (e : Enigma) :
    e.stepRotores =
      { e with
        rotorEsq := if e.rotorMeio.estaNoNotch then e.rotorEsq.girar else e.rotorEsq
        rotorMeio :=
          if e.rotorDir.estaNoNotch then
            (if e.rotorMeio.estaNoNotch then e.rotorMeio.girar else e.rotorMeio).girar
          else
            (if e.rotorMeio.estaNoNotch then e.rotorMeio.girar else e.rotorMeio)
        rotorDir := e.rotorDir.girar } := by
  unfold Enigma.stepRotores
  by_cases h1 : e.rotorMeio.estaNoNotch <;> by_cases h2 : e.rotorDir.estaNoNotch <;>
    simp [h1, h2]

theorem stepRotores_fields (e : Enigma) :
    e.stepRotores.reflector = e.reflector ∧
    e.stepRotores.plugboard = e.plugboard ∧
    e.stepRotores.rotorDir = e.rotorDir.girar ∧
    (e.stepRotores.rotorEsq = e.rotorEsq ∨
      e.stepRotores.rotorEsq = e.rotorEsq.girar) ∧
    (e.stepRotores.rotorMeio = e.rotorMeio ∨
      e.stepRotores.rotorMeio = e.rotorMeio.girar ∨
      e.stepRotores.rotorMeio = e.rotorMeio.girar.girar) := by
  rw [stepRotores_eq]
  refine ⟨rfl, rfl, rfl, ?_, ?_⟩
  · by_cases h1 : e.rotorMeio.estaNoNotch
    · right
      show (if e.rotorMeio.estaNoNotch then e.rotorEsq.girar else e.rotorEsq)
        = e.rotorEsq.girar
      rw [if_pos h1]
    · left
      show (if e.rotorMeio.estaNoNotch then e.rotorEsq.girar else e.rotorEsq)
        = e.rotorEsq
      rw [if_neg h1]
  · by_cases h1 : e.rotorMeio.estaNoNotch <;> by_cases h2 : e.rotorDir.estaNoNotch
    · right; right
      show (if e.rotorDir.estaNoNotch then
          (if e.rotorMeio.estaNoNotch then e.rotorMeio.girar else e.rotorMeio).girar
        else
          (if e.rotorMeio.estaNoNotch then e.rotorMeio.girar else e.rotorMeio))
        = e.rotorMeio.girar.girar
      rw [if_pos h2, if_pos h1]
    · right; left
      show (if e.rotorDir.estaNoNotch then
          (if e.rotorMeio.estaNoNotch then e.rotorMeio.girar else e.rotorMeio).girar
        else
          (if e.rotorMeio.estaNoNotch then e.rotorMeio.girar else e.rotorMeio))
        = e.rotorMeio.girar
      rw [if_neg h2, if_pos h1]
    · right; left
      show (if e.rotorDir.estaNoNotch then
          (if e.rotorMeio.estaNoNotch then e.rotorMeio.girar else e.rotorMeio).girar
        else
          (if e.rotorMeio.estaNoNotch then e.rotorMeio.girar else e.rotorMeio))
        = e.rotorMeio.girar
      rw [if_pos h2, if_neg h1]
    · left
      show (if e.rotorDir.estaNoNotch then
          (if e.rotorMeio.estaNoNotch then e.rotorMeio.girar else e.rotorMeio).girar
        else
          (if e.rotorMeio.estaNoNotch then e.rotorMeio.girar else e.rotorMeio))
        = e.rotorMeio
      rw [if_neg h2, if_neg h1]

theorem stepRotores_good (e : Enigma) (h : EnigmaGood e) :
    EnigmaGood e.stepRotores := by
  obtain ⟨hEsq, hMeio, hDir, hRef, hPlug⟩ := h
  obtain ⟨hrefl, hplug, hdir, hesq, hmeio⟩ := stepRotores_fields e
  refine ⟨?_, ?_, ?_, ?_, ?_⟩
  · rcases hesq with h | h
    · rw [h]; exact hEsq
    · rw [h]; exact girar_good _ hEsq
  · rcases hmeio with h | h | h
    · rw [h]; exact hMeio
    · rw [h]; exact girar_good _ hMeio
    · rw [h]; exact girar_good _ (girar_good _ hMeio)
  · rw [hdir]; exact girar_good _ hDir
  · rw [hrefl]; exact hRef
  · rw [hplug]; exact hPlug

/-- Proof-layer name for the nine-stage routing of one (already stepped)
keystroke; `encipherChar_letter` proves it is what `encipherChar` computes
after stepping. -/
def routeChar (e : Enigma) (c : Char) : Char :=
  e.plugboard.trocar
    (e.rotorDir.passarParaTras
      (e.rotorMeio.passarParaTras
        (e.rotorEsq.passarParaTras
          (e.reflector.refletir
            (e.rotorEsq.passarParaFrente
              (e.rotorMeio.passarParaFrente
                (e.rotorDir.passarParaFrente
                  (e.plugboard.trocar c))))))))

theorem encipherCharWithPath_letter (e : Enigma) (letra : Char)
    (hc : letra.toUpper ∈ ALPHABET) :
    e.encipherCharWithPath letra =
      (e.stepRotores,
        { steps := (e.encipherCharWithPath letra).2.steps
          inputLetter := letra.toUpper
          outputLetter := routeChar e.stepRotores letra.toUpper }) := by
  unfold Enigma.encipherCharWithPath
  rw [if_pos hc]
  rfl

theorem encipherChar_letter (e : Enigma) (letra : Char)
    (hc : letra.toUpper ∈ ALPHABET) :
    e.encipherChar letra = (e.stepRotores, routeChar e.stepRotores letra.toUpper) := by
  unfold Enigma.encipherChar
  rw [encipherCharWithPath_letter e letra hc]

theorem encipherCharWithPath_nonletter (e : Enigma) (letra : Char)
    (hc : letra.toUpper ∉ ALPHABET) :
    e.encipherCharWithPath letra =
      (e, { steps := [], inputLetter := letra, outputLetter := letra }) := by
  unfold Enigma.encipherCharWithPath
  rw [if_neg hc]

theorem encipherChar_nonletter (e : Enigma) (letra : Char)
    (hc : letra.toUpper ∉ ALPHABET) :
    e.encipherChar letra = (e, letra) := by
  unfold Enigma.encipherChar
  rw [encipherCharWithPath_nonletter e letra hc]

theorem routeChar_mem (e : Enigma) (h : EnigmaGood e) (c : Char)
    (hc : c ∈ ALPHABET) : routeChar e c ∈ ALPHABET := by
  obtain ⟨-, -, -, hRef, hPlug⟩ := h
  unfold routeChar
  exact (hPlug _ (passarParaTras_mem _ _)).1

theorem routeChar_invol (e : Enigma) (h : EnigmaGood e) (c : Char)
    (hc : c ∈ ALPHABET) : routeChar e (routeChar e c) = c := by
  obtain ⟨hEsq, hMeio, hDir, hRef, hPlug⟩ := h
  have m1 : e.plugboard.trocar c ∈ ALPHABET := (hPlug c hc).1
  have m2 := passarParaFrente_mem e.rotorDir (e.plugboard.trocar c)
  have m3 := passarParaFrente_mem e.rotorMeio
    (e.rotorDir.passarParaFrente (e.plugboard.trocar c))
  have m4 := passarParaFrente_mem e.rotorEsq
    (e.rotorMeio.passarParaFrente
      (e.rotorDir.passarParaFrente (e.plugboard.trocar c)))
  have m5 : e.reflector.refletir
      (e.rotorEsq.passarParaFrente
        (e.rotorMeio.passarParaFrente
          (e.rotorDir.passarParaFrente (e.plugboard.trocar c)))) ∈ ALPHABET :=
    (hRef _ m4).1
  have m6 := passarParaTras_mem e.rotorEsq
    (e.reflector.refletir
      (e.rotorEsq.passarParaFrente
        (e.rotorMeio.passarParaFrente
          (e.rotorDir.passarParaFrente (e.plugboard.trocar c)))))
  have m7 := passarParaTras_mem e.rotorMeio
    (e.rotorEsq.passarParaTras
      (e.reflector.refletir
        (e.rotorEsq.passarParaFrente
          (e.rotorMeio.passarParaFrente
            (e.rotorDir.passarParaFrente (e.plugboard.trocar c))))))
  have m8 := passarParaTras_mem e.rotorDir
    (e.rotorMeio.passarParaTras
      (e.rotorEsq.passarParaTras
        (e.reflector.refletir
          (e.rotorEsq.passarParaFrente
            (e.rotorMeio.passarParaFrente
              (e.rotorDir.passarParaFrente (e.plugboard.trocar c)))))))
  unfold routeChar
  rw [(hPlug _ m8).2,
    rotor_forward_backward e.rotorDir hDir.1 hDir.2.1 hDir.2.2 _ m7,
    rotor_forward_backward e.rotorMeio hMeio.1 hMeio.2.1 hMeio.2.2 _ m6,
    rotor_forward_backward e.rotorEsq hEsq.1 hEsq.2.1 hEsq.2.2 _ m5,
    (hRef _ m4).2,
    rotor_backward_forward e.rotorEsq hEsq.1 hEsq.2.1 hEsq.2.2 _ m3,
    rotor_backward_forward e.rotorMeio hMeio.1 hMeio.2.1 hMeio.2.2 _ m2,
    rotor_backward_forward e.rotorDir hDir.1 hDir.2.1 hDir.2.2 _ m1,
    (hPlug c hc).2]

theorem prod_fst_mk {α β : Type} (a : α) (b : β) : (a, b).1 = a := rfl

theorem prod_snd_mk {α β : Type} (a : α) (b : β) : (a, b).2 = b := rfl

theorem encipherText_nil (e : Enigma) : e.encipherText [] = (e, []) := rfl

theorem encipherText_cons (e : Enigma) (c : Char) (t : List Char) :
    e.encipherText (c :: t) =
      (((e.encipherChar c).1.encipherText t).1,
        (e.encipherChar c).2 :: ((e.encipherChar c).1.encipherText t).2) := rfl

/-- Self-reciprocity of the text cipher: from a well-formed machine state,
enciphering the ciphertext of a plaintext whose characters are uppercase
letters or non-letters (after case normalization) reproduces the plaintext. -/
theorem encipherText_reciprocal (pt : List Char) :
    ∀ (e : Enigma), EnigmaGood e →
      (∀ c ∈ pt, c ∈ ALPHABET ∨ c.toUpper ∉ ALPHABET) →
      (e.encipherText (e.encipherText pt).2).2 = pt := by
  induction pt with
  | nil => intro e _ _; rfl
  | cons c t ih =>
    intro e hG hpt
    rcases hpt c (by simp) with hc | hc
    · have hcU : c.toUpper = c := (mem_alphabet_facts c hc).1
      have hstep := encipherChar_letter e c (by rw [hcU]; exact hc)
      rw [hcU] at hstep
      have hG1 : EnigmaGood e.stepRotores := stepRotores_good e hG
      have hy : routeChar e.stepRotores c ∈ ALPHABET := routeChar_mem _ hG1 c hc
      have hyU : (routeChar e.stepRotores c).toUpper = routeChar e.stepRotores c :=
        (mem_alphabet_facts _ hy).1
      have hstep2 := encipherChar_letter e (routeChar e.stepRotores c)
        (by rw [hyU]; exact hy)
      rw [hyU, routeChar_invol _ hG1 c hc] at hstep2
      rw [encipherText_cons, hstep]
      simp only [prod_fst_mk, prod_snd_mk]
      rw [encipherText_cons, hstep2]
      simp only [prod_fst_mk, prod_snd_mk]
      exact congrArg (c :: ·) (ih e.stepRotores hG1
        (fun d hd => hpt d (List.mem_cons_of_mem _ hd)))
    · have hstep := encipherChar_nonletter e c hc
      rw [encipherText_cons, hstep]
      simp only [prod_fst_mk, prod_snd_mk]
      rw [encipherText_cons, hstep]
      simp only [prod_fst_mk, prod_snd_mk]
      exact congrArg (c :: ·)
        (ih e hG (fun d hd => hpt d (List.mem_cons_of_mem _ hd)))

/-! ### Machines built from a configuration -/

theorem alphabet_code_range : ∀ p ∈ ALPHABET, 65 ≤ p.toNat ∧ p.toNat ≤ 90 := by
  decide

theorem setPosicaoPorLetra_letter (r : Rotor) (p : Char) (hp : p ∈ ALPHABET) :
    r.setPosicaoPorLetra [p] = .ok { r with posicao := idxOf p } := by
  have hU : p.toUpper = p := (mem_alphabet_facts p hp).1
  have hrange := alphabet_code_range p hp
  have hnat : ((p.toNat : Int) - 65).toNat = idxOf p := by
    unfold idxOf; omega
  unfold Rotor.setPosicaoPorLetra charCodeAt0
  simp only [List.map, hU, List.head?, Option.map]
  rw [if_neg (by omega : ¬((p.toNat : Int) - 65 < 0 ∨ (p.toNat : Int) - 65 > 25))]
  rw [hnat]

theorem setPosicoes_letters (e : Enigma) (p1 p2 p3 : Char)
    (h1 : p1 ∈ ALPHABET) (h2 : p2 ∈ ALPHABET) (h3 : p3 ∈ ALPHABET) :
    e.setPosicoes [[p1], [p2], [p3]] =
      ({ e with rotorEsq := { e.rotorEsq with posicao := idxOf p1 }
                rotorMeio := { e.rotorMeio with posicao := idxOf p2 }
                rotorDir := { e.rotorDir with posicao := idxOf p3 } }, none) := by
  unfold Enigma.setPosicoes
  rw [if_neg (by simp)]
  rw [show ([[p1], [p2], [p3]] : List (List Char)).getD 0 [] = [p1] from rfl,
    show ([[p1], [p2], [p3]] : List (List Char)).getD 1 [] = [p2] from rfl,
    show ([[p1], [p2], [p3]] : List (List Char)).getD 2 [] = [p3] from rfl,
    setPosicaoPorLetra_letter _ p1 h1, setPosicaoPorLetra_letter _ p2 h2,
    setPosicaoPorLetra_letter _ p3 h3]

theorem buildMachine_eq (t1 t2 t3 : RotorType) (rf : ReflectorType)
    (p1 p2 p3 : Char) (pares : List (List Char))
    (h1 : p1 ∈ ALPHABET) (h2 : p2 ∈ ALPHABET) (h3 : p3 ∈ ALPHABET) :
    buildMachine t1 t2 t3 rf p1 p2 p3 pares =
      { reflector := reflectorOf rf
        rotorEsq := { rotorOf t1 with posicao := idxOf p1 }
        rotorMeio := { rotorOf t2 with posicao := idxOf p2 }
        rotorDir := { rotorOf t3 with posicao := idxOf p3 }
        plugboard := mkPlugboard pares } := by
  unfold buildMachine
  rw [setPosicoes_letters _ p1 p2 p3 h1 h2 h3]

theorem rotorOf_perm : ∀ t : RotorType, (rotorOf t).wiring.Perm ALPHABET := by
  intro t
  cases t <;> exact alphabet_perm_of _ (by decide) (by decide)

theorem rotorOf_inverse : ∀ t : RotorType,
    (rotorOf t).inverseWiring = calcularInverseWiring (rotorOf t).wiring := by
  intro t
  cases t <;> decide

theorem rotor_set_good (t : RotorType) (p : Char) (hp : p ∈ ALPHABET) :
    RotorGood { rotorOf t with posicao := idxOf p } := by
  refine ⟨?_, ?_, ?_⟩
  · show (rotorOf t).wiring.Perm ALPHABET
    exact rotorOf_perm t
  · show (rotorOf t).inverseWiring = calcularInverseWiring (rotorOf t).wiring
    exact rotorOf_inverse t
  · show idxOf p < 26
    exact (mem_alphabet_facts p hp).2.1

theorem reflectorOf_good : ∀ rt : ReflectorType, ReflectorGood (reflectorOf rt) := by
  intro rt
  cases rt
  all_goals unfold ReflectorGood
  all_goals decide

theorem buildMachine_good (t1 t2 t3 : RotorType) (rf : ReflectorType)
    (p1 p2 p3 : Char) (pares : List (List Char))
    (h1 : p1 ∈ ALPHABET) (h2 : p2 ∈ ALPHABET) (h3 : p3 ∈ ALPHABET)
    (hnd : (plugLetters pares).Nodup) :
    EnigmaGood (buildMachine t1 t2 t3 rf p1 p2 p3 pares) := by
  rw [buildMachine_eq t1 t2 t3 rf p1 p2 p3 pares h1 h2 h3]
  exact ⟨rotor_set_good t1 p1 h1, rotor_set_good t2 p2 h2,
    rotor_set_good t3 p3 h3, reflectorOf_good rf,
    plugboard_trocar_good pares hnd⟩

set_option maxRecDepth 4000 in
/-- C1, counterexample to the claim as stated: the plaintext `"h"` (a
lowercase letter) enciphers and deciphers, on the claim's own configuration,
to `"H"`, not back to `"h"`. -/
theorem self_reciprocity_C1_counterexample :
    ((buildMachine .I .II .III .B 'A' 'A' 'A' [['A','Q'], ['B','T']]).encipherText
      ((buildMachine .I .II .III .B 'A' 'A' 'A' [['A','Q'], ['B','T']]).encipherText
        ['h']).2).2 ≠ ['h'] := by decide

/-- C1, amended. Self-reciprocity: for every configuration (rotor choices,
reflector choice, alphabet starting positions, plugboard pairs whose
accepted pairs reuse no letter) and every plaintext whose characters are
uppercase alphabet letters or non-letters, a fresh identically configured
machine enciphering the ciphertext reproduces the plaintext; in particular
the `HELLOWORLD` round trip holds on rotors I,II,III, reflector B,
positions A,A,A, plugboard AQ,BT. -/
theorem self_reciprocity_C1 :
    (∀ (t1 t2 t3 : RotorType) (rf : ReflectorType) (p1 p2 p3 : Char)
        (pares : List (List Char)) (pt : List Char),
        p1 ∈ ALPHABET → p2 ∈ ALPHABET → p3 ∈ ALPHABET →
        (plugLetters pares).Nodup →
        (∀ c ∈ pt, c ∈ ALPHABET ∨ c.toUpper ∉ ALPHABET) →
        ((buildMachine t1 t2 t3 rf p1 p2 p3 pares).encipherText
          ((buildMachine t1 t2 t3 rf p1 p2 p3 pares).encipherText pt).2).2 = pt) ∧
    ((buildMachine .I .II .III .B 'A' 'A' 'A' [['A','Q'], ['B','T']]).encipherText
      ((buildMachine .I .II .III .B 'A' 'A' 'A' [['A','Q'], ['B','T']]).encipherText
        "HELLOWORLD".toList).2).2 = "HELLOWORLD".toList := by
  constructor
  · intro t1 t2 t3 rf p1 p2 p3 pares pt h1 h2 h3 hnd hpt
    exact encipherText_reciprocal pt _
      (buildMachine_good t1 t2 t3 rf p1 p2 p3 pares h1 h2 h3 hnd) hpt
  · exact encipherText_reciprocal _ _
      (buildMachine_good .I .II .III .B 'A' 'A' 'A' [['A','Q'], ['B','T']]
        (by decide) (by decide) (by decide) (by decide)) (by decide)

/-- Witness for C1: rotors II,IV,V, reflector C, positions B,C,D, plugboard
XY, plaintext `ENIGMA`. -/
theorem self_reciprocity_C1_witness :
    ((buildMachine .II .IV .V .C 'B' 'C' 'D' [['X','Y']]).encipherText
      ((buildMachine .II .IV .V .C 'B' 'C' 'D' [['X','Y']]).encipherText
        "ENIGMA".toList).2).2 = "ENIGMA".toList :=
  self_reciprocity_C1.1 .II .IV .V .C 'B' 'C' 'D' [['X','Y']] "ENIGMA".toList
    (by decide) (by decide) (by decide) (by decide) (by decide)

/-- C2. The stepping before each routed letter: both notch flags are read
from the pre-step positions, the two conditionals are independent, and the
right rotor always rotates; consequently from positions `[A,E,A]` with
rotors I,II,III one keystroke yields positions `[B,F,B]` (middle and left
advanced), and from `[A,A,V]` it yields `[A,B,W]` (middle advanced). -/
theorem stepping_C2 :
    (∀ e : Enigma,
      e.stepRotores.rotorEsq.posicao =
        (if e.rotorMeio.estaNoNotch then (e.rotorEsq.posicao + 1) % 26
          else e.rotorEsq.posicao) ∧
      e.stepRotores.rotorMeio.posicao =
        (if e.rotorMeio.estaNoNotch then
          (if e.rotorDir.estaNoNotch then (e.rotorMeio.posicao + 2) % 26
            else (e.rotorMeio.posicao + 1) % 26)
          else
          (if e.rotorDir.estaNoNotch then (e.rotorMeio.posicao + 1) % 26
            else e.rotorMeio.posicao)) ∧
      e.stepRotores.rotorDir.posicao = (e.rotorDir.posicao + 1) % 26) ∧
    ((buildMachine .I .II .III .B 'A' 'E' 'A' []).encipherChar 'A').1.getPosicoes
      = ['B', 'F', 'B'] ∧
    ((buildMachine .I .II .III .B 'A' 'A' 'V' []).encipherChar 'A').1.getPosicoes
      = ['A', 'B', 'W'] := by
  refine ⟨?_, by decide, by decide⟩
  intro e
  rw [stepRotores_eq]
  cases hm : e.rotorMeio.estaNoNotch <;> cases hd : e.rotorDir.estaNoNotch <;>
    simp [hm, hd, Rotor.girar] <;> omega

/-! ### Non-letter passthrough, case insensitivity, error contracts -/

theorem encipherText_passthrough (t : List Char) : ∀ e : Enigma,
    (e.encipherText t).2.length = t.length ∧
    (∀ i, i < t.length → (t.getD i ' ').toUpper ∉ ALPHABET →
      (e.encipherText t).2.getD i ' ' = t.getD i ' ') := by
  induction t with
  | nil => exact fun e => ⟨rfl, fun i hi _ => absurd hi (by simp)⟩
  | cons c t ih =>
    intro e
    rw [encipherText_cons, prod_snd_mk]
    constructor
    · rw [List.length_cons, List.length_cons, (ih _).1]
    · intro i hi hnl
      cases i with
      | zero =>
        rw [List.getD_cons_zero] at hnl
        rw [List.getD_cons_zero, List.getD_cons_zero,
          encipherChar_nonletter e c hnl, prod_snd_mk]
      | succ i =>
        rw [List.getD_cons_succ] at hnl
        rw [List.getD_cons_succ, List.getD_cons_succ]
        rw [List.length_cons] at hi
        exact (ih _).2 i (by omega) hnl

/-- C6. Non-letter passthrough: a character that is not an alphabet letter
after case normalization is returned unchanged with the machine state
untouched and an empty step list; consequently `encipherText` keeps every
non-letter character of the input at its original position and value (and
the output has the same length as the input). -/
theorem nonletter_passthrough_C6 :
    (∀ (e : Enigma) (c : Char), c.toUpper ∉ ALPHABET →
      e.encipherCharWithPath c
        = (e, { steps := [], inputLetter := c, outputLetter := c })) ∧
    (∀ (e : Enigma) (t : List Char),
      (e.encipherText t).2.length = t.length ∧
      (∀ i, i < t.length → (t.getD i ' ').toUpper ∉ ALPHABET →
        (e.encipherText t).2.getD i ' ' = t.getD i ' ')) :=
  ⟨fun e c hc => encipherCharWithPath_nonletter e c hc,
    fun e t => encipherText_passthrough t e⟩

/-- Witness for C6: the comma in `HELLO, WORLD! 123` at index 5. -/
theorem nonletter_passthrough_C6_witness :
    (buildMachine .I .II .III .B 'A' 'A' 'A' []).encipherCharWithPath ','
      = (buildMachine .I .II .III .B 'A' 'A' 'A' [],
          { steps := [], inputLetter := ',', outputLetter := ',' }) ∧
    ((buildMachine .I .II .III .B 'A' 'A' 'A' []).encipherText
      "HELLO, WORLD! 123".toList).2.getD 5 ' '
      = "HELLO, WORLD! 123".toList.getD 5 ' ' :=
  ⟨nonletter_passthrough_C6.1 _ ',' (by decide),
    (nonletter_passthrough_C6.2 _ "HELLO, WORLD! 123".toList).2 5
      (by decide) (by decide)⟩

theorem char_mem_alphabet_iff (u : Char) :
    u ∈ ALPHABET ↔ (65 ≤ u.toNat ∧ u.toNat ≤ 90) := by
  constructor
  · intro h; exact alphabet_code_range u h
  · intro h
    obtain ⟨hl, hr⟩ := h
    rw [← Char.ofNat_toNat u]
    generalize u.toNat = n at hl hr
    interval_cases n <;> decide

/-- The behaviour of `setPosicaoPorLetra` on every nonempty string: an
error exactly when the first character of the uppercased string is not an
alphabet letter, otherwise the position becomes that letter's index and the
rest of the string is ignored. -/
theorem setPosicaoPorLetra_eq (r : Rotor) (s : List Char) (hne : s ≠ []) :
    r.setPosicaoPorLetra s =
      if (s.getD 0 ' ').toUpper ∈ ALPHABET
      then .ok { r with posicao := idxOf (s.getD 0 ' ').toUpper }
      else .error "Invalid position" := by
  match s, hne with
  | c :: rest, _ =>
    rw [List.getD_cons_zero]
    unfold Rotor.setPosicaoPorLetra charCodeAt0
    simp only [List.map, List.head?, Option.map]
    by_cases hmem : c.toUpper ∈ ALPHABET
    · have hrange := alphabet_code_range _ hmem
      rw [if_neg (by omega :
          ¬((c.toUpper.toNat : Int) - 65 < 0 ∨ (c.toUpper.toNat : Int) - 65 > 25)),
        if_pos hmem,
        (by unfold idxOf; omega :
          ((c.toUpper.toNat : Int) - 65).toNat = idxOf c.toUpper)]
    · have hrange : ¬(65 ≤ c.toUpper.toNat ∧ c.toUpper.toNat ≤ 90) :=
        fun h => hmem ((char_mem_alphabet_iff _).mpr h)
      rw [if_pos (by omega :
          (c.toUpper.toNat : Int) - 65 < 0 ∨ (c.toUpper.toNat : Int) - 65 > 25),
        if_neg hmem]

/-- C7, counterexample to the claim as stated: the two-character string
`"AB"` is not a single alphabet letter, yet `setPosicaoPorLetra` raises no
error — it silently uses the first character and sets the position to 0. -/
theorem setPosition_contract_C7_counterexample :
    ROTOR_I.setPosicaoPorLetra ['A', 'B'] = .ok { ROTOR_I with posicao := 0 } :=
  rfl

/-- C7, amended. For every nonempty input string, `setPosicaoPorLetra`
raises the InvalidInput error iff the first character of the case-normalized
string is not an alphabet letter; otherwise it sets the position to that
letter's index, ignoring the rest of the string. (The empty string raises
no error either: the source stores `NaN` as the position.) -/
theorem setPosition_contract_C7 (r : Rotor) (s : List Char) (hne : s ≠ []) :
    r.setPosicaoPorLetra s =
      if (s.getD 0 ' ').toUpper ∈ ALPHABET
      then .ok { r with posicao := idxOf (s.getD 0 ' ').toUpper }
      else .error "Invalid position" :=
  setPosicaoPorLetra_eq r s hne

/-- Witness for C7: the lowercase string `"x"` sets the position to 23. -/
theorem setPosition_contract_C7_witness :
    ROTOR_II.setPosicaoPorLetra ['x'] =
      if (['x'].getD 0 ' ').toUpper ∈ ALPHABET
      then .ok { ROTOR_II with posicao := idxOf (['x'].getD 0 ' ').toUpper }
      else .error "Invalid position" :=
  setPosition_contract_C7 ROTOR_II ['x'] (by decide)

set_option maxRecDepth 8000 in
/-- C8. No self-mapping on the default configuration: with rotors I,II,III,
reflector B, positions A,A,A and an empty plugboard, a fresh machine never
enciphers a letter to itself. -/
theorem no_selfmap_C8 : ∀ x ∈ ALPHABET,
    ((buildMachine .I .II .III .B 'A' 'A' 'A' []).encipherChar x).2 ≠ x := by
  decide

/-- Witness for C8: the letter `A`. -/
theorem no_selfmap_C8_witness :
    ((buildMachine .I .II .III .B 'A' 'A' 'A' []).encipherChar 'A').2 ≠ 'A' :=
  no_selfmap_C8 'A' (by decide)

/-- C9. `setPosicoes` is not atomic on error: with a valid first position
letter and an invalid second entry, the call reports the error but the left
rotor's position has already been changed while the middle and right rotors
are untouched; with two valid letters and an invalid third entry, the left
and middle rotors have been changed and only the right rotor is untouched. -/
theorem setPosicoes_partial_C9 :
    (∀ (e : Enigma) (c1 : Char) (s2 s3 : List Char),
      c1 ∈ ALPHABET → s2 ≠ [] → (s2.getD 0 ' ').toUpper ∉ ALPHABET →
      (e.setPosicoes [[c1], s2, s3]).2 = some "Invalid position" ∧
      (e.setPosicoes [[c1], s2, s3]).1 =
        { e with rotorEsq := { e.rotorEsq with posicao := idxOf c1 } }) ∧
    (∀ (e : Enigma) (c1 c2 : Char) (s3 : List Char),
      c1 ∈ ALPHABET → c2 ∈ ALPHABET → s3 ≠ [] →
      (s3.getD 0 ' ').toUpper ∉ ALPHABET →
      (e.setPosicoes [[c1], [c2], s3]).2 = some "Invalid position" ∧
      (e.setPosicoes [[c1], [c2], s3]).1 =
        { e with rotorEsq := { e.rotorEsq with posicao := idxOf c1 }
                 rotorMeio := { e.rotorMeio with posicao := idxOf c2 } }) := by
  constructor
  · intro e c1 s2 s3 h1 h2ne h2
    unfold Enigma.setPosicoes
    rw [if_neg (by simp)]
    rw [show ([[c1], s2, s3] : List (List Char)).getD 0 [] = [c1] from rfl,
      show ([[c1], s2, s3] : List (List Char)).getD 1 [] = s2 from rfl,
      setPosicaoPorLetra_letter _ c1 h1,
      setPosicaoPorLetra_eq _ s2 h2ne, if_neg h2]
    exact ⟨rfl, rfl⟩
  · intro e c1 c2 s3 h1 h2 h3ne h3
    unfold Enigma.setPosicoes
    rw [if_neg (by simp)]
    rw [show ([[c1], [c2], s3] : List (List Char)).getD 0 [] = [c1] from rfl,
      show ([[c1], [c2], s3] : List (List Char)).getD 1 [] = [c2] from rfl,
      show ([[c1], [c2], s3] : List (List Char)).getD 2 [] = s3 from rfl,
      setPosicaoPorLetra_letter _ c1 h1, setPosicaoPorLetra_letter _ c2 h2,
      setPosicaoPorLetra_eq _ s3 h3ne, if_neg h3]
    exact ⟨rfl, rfl⟩

/-- Witness for C9: positions `["B", "?", "C"]` and `["B", "C", "?"]` on
the default machine. -/
theorem setPosicoes_partial_C9_witness :
    (((buildMachine .I .II .III .B 'A' 'A' 'A' []).setPosicoes
      [['B'], ['?'], ['C']]).2 = some "Invalid position" ∧
    ((buildMachine .I .II .III .B 'A' 'A' 'A' []).setPosicoes
      [['B'], ['?'], ['C']]).1 =
      { buildMachine .I .II .III .B 'A' 'A' 'A' [] with
        rotorEsq := { (buildMachine .I .II .III .B 'A' 'A' 'A' []).rotorEsq with
          posicao := idxOf 'B' } }) ∧
    (((buildMachine .I .II .III .B 'A' 'A' 'A' []).setPosicoes
      [['B'], ['C'], ['?']]).2 = some "Invalid position" ∧
    ((buildMachine .I .II .III .B 'A' 'A' 'A' []).setPosicoes
      [['B'], ['C'], ['?']]).1 =
      { buildMachine .I .II .III .B 'A' 'A' 'A' [] with
        rotorEsq := { (buildMachine .I .II .III .B 'A' 'A' 'A' []).rotorEsq with
          posicao := idxOf 'B' }
        rotorMeio := { (buildMachine .I .II .III .B 'A' 'A' 'A' []).rotorMeio with
          posicao := idxOf 'C' } }) :=
  ⟨setPosicoes_partial_C9.1 (buildMachine .I .II .III .B 'A' 'A' 'A' [])
      'B' ['?'] ['C'] (by decide) (by decide) (by decide),
    setPosicoes_partial_C9.2 (buildMachine .I .II .III .B 'A' 'A' 'A' [])
      'B' 'C' ['?'] (by decide) (by decide) (by decide) (by decide)⟩

theorem lowercase_toUpper_mem :
    ∀ c ∈ "abcdefghijklmnopqrstuvwxyz".toList, c.toUpper ∈ ALPHABET := by
  decide

theorem encipherCharWithPath_toUpper (e : Enigma) (c : Char)
    (hc : c.toUpper ∈ ALPHABET) :
    e.encipherCharWithPath c = e.encipherCharWithPath c.toUpper := by
  unfold Enigma.encipherCharWithPath
  rw [(mem_alphabet_facts _ hc).1]
  simp only [if_pos hc]

theorem encipherCharWithPath_steps_nonempty (e : Enigma) (c : Char)
    (hc : c.toUpper ∈ ALPHABET) :
    (e.encipherCharWithPath c).2.steps ≠ [] := by
  unfold Enigma.encipherCharWithPath
  rw [if_pos hc]
  exact List.cons_ne_nil _ _

/-- C10. `encipherChar` is case-insensitive: for every machine state and
every lowercase letter, the keystroke (state change, trace and output) is
identical to that of the corresponding uppercase letter, and the letter is
not treated as non-letter passthrough (the step list is nonempty). -/
theorem case_insensitive_C10 (e : Enigma) (c : Char)
    (hc : c ∈ "abcdefghijklmnopqrstuvwxyz".toList) :
    e.encipherCharWithPath c = e.encipherCharWithPath c.toUpper ∧
    (e.encipherCharWithPath c).2.steps ≠ [] := by
  have h2 : c.toUpper ∈ ALPHABET := lowercase_toUpper_mem c hc
  exact ⟨encipherCharWithPath_toUpper e c h2,
    encipherCharWithPath_steps_nonempty e c h2⟩

/-- Witness for C10: the letter `h` on the default machine. -/
theorem case_insensitive_C10_witness :
    (buildMachine .I .II .III .B 'A' 'A' 'A' []).encipherCharWithPath 'h'
      = (buildMachine .I .II .III .B 'A' 'A' 'A' []).encipherCharWithPath 'h'.toUpper ∧
    ((buildMachine .I .II .III .B 'A' 'A' 'A' []).encipherCharWithPath 'h').2.steps
      ≠ [] :=
  case_insensitive_C10 (buildMachine .I .II .III .B 'A' 'A' 'A' []) 'h' (by decide)
